import Mathlib

/-!
Shallow embedding of rt2to3.py (runtime 2to3 conversion on import) and
proofs about its cache path scheme, cache lookup, transform boundary,
fixer selection, cache tag, path hook and installation predicate.

Modelling conventions: paths and source text are strings of characters,
byte content of files is a list of naturals, modification times are
integers, errno values are naturals.  The Python helpers used by the code
(os.path.split, os.path.join, str.partition, str.startswith) are modelled
over the character lists of the strings, following the posixpath
implementations for a filesystem whose separator is the slash.  External
collaborators (the lib2to3 refactoring engine, the codec layer, the md5
digest) are abstract function parameters: the claims under study never
depend on their concrete behaviour, only on how the code wires them.
-/

/-- Python os.path.split for posix paths: the tail is the part after the
last slash, and the head is the part before it, with trailing slashes
stripped from the head unless the head consists only of slashes. -/
def pySplit (p : String) : String × String :=
  let cs := p.data
  let tail := (cs.reverse.takeWhile (fun c => c ≠ '/')).reverse
  let head := cs.take (cs.length - tail.length)
  let head2 :=
    if head ≠ [] ∧ ¬ (∀ c ∈ head, c = '/') then
      (head.reverse.dropWhile (fun c => c = '/')).reverse
    else head
  (⟨head2⟩, ⟨tail⟩)

/-- Python os.path.join for two posix path components: an absolute second
component replaces the first, otherwise a slash is put between the two
unless the first component is empty or already ends in a slash. -/
def pyJoin2 (a b : String) : String :=
  if b.data.head? = some '/' then b
  else if a.data = [] ∨ a.data.getLast? = some '/' then a ++ b
  else a ++ "/" ++ b

/-- Python str.partition at the first dot: the part before the first dot,
the dot itself, and the part after it; when the string has no dot the
whole string is returned with two empty parts. -/
def pyPartitionDot (s : String) : String × String × String :=
  match s.data.dropWhile (fun c => c ≠ '.') with
  | [] => (s, "", "")
  | _ :: t => (⟨s.data.takeWhile (fun c => c ≠ '.')⟩, ".", ⟨t⟩)

/-- Runtime2to3SourceFileLoader._2to3_cache_path: split the path into head
and tail, cut the tail at its first dot, rebuild the filename as
base ++ sep ++ tag ++ sep ++ rest, and place it under the __pycache__
subdirectory of the head. -/
def _2to3_cache_path (tag : String) (path : String) : String :=
  let ht := pySplit path
  let pt := pyPartitionDot ht.2
  let filename := pt.1 ++ pt.2.1 ++ tag ++ pt.2.1 ++ pt.2.2
  pyJoin2 (pyJoin2 ht.1 "__pycache__") filename

lemma takeWhileAppendCons (p : Char → Bool) (l1 : List Char) (b : Char)
    (l2 : List Char) (h1 : ∀ a ∈ l1, p a = true) (hb : p b = false) :
    (l1 ++ b :: l2).takeWhile p = l1 := by
  induction l1 with
  | nil => simpa using hb
  | cons x xs ih =>
      have hx : p x = true := h1 x (by simp)
      simp only [List.cons_append, List.takeWhile_cons, hx, if_true]
      rw [ih (fun a ha => h1 a (by simp [ha]))]

lemma dropWhileAppendCons (p : Char → Bool) (l1 : List Char) (b : Char)
    (l2 : List Char) (h1 : ∀ a ∈ l1, p a = true) (hb : p b = false) :
    (l1 ++ b :: l2).dropWhile p = b :: l2 := by
  induction l1 with
  | nil => simpa using hb
  | cons x xs ih =>
      have hx : p x = true := h1 x (by simp)
      simp only [List.cons_append, List.dropWhile_cons, hx, if_true]
      exact ih (fun a ha => h1 a (by simp [ha]))

lemma dropWhileHeadFalse (p : Char → Bool) (l : List Char) (c : Char)
    (h : l.head? = some c) (hc : p c = false) : l.dropWhile p = l := by
  cases l with
  | nil => rfl
  | cons x xs =>
      simp only [List.head?_cons, Option.some.injEq] at h
      subst h
      simp [List.dropWhile_cons, hc]

lemma strAppendAssoc (a b c : String) : a ++ b ++ c = a ++ (b ++ c) := by
  apply String.ext
  simp [String.data_append, List.append_assoc]

/-- Decomposition of pySplit on a path of the form dir/last where the last
component has no slash and dir does not end in a slash: the head is dir
and the tail is the last component. -/
lemma pySplit_eq (dir rest : String) (hr : ∀ c ∈ rest.data, c ≠ '/')
    (hd : dir.data.getLast? ≠ some '/') :
    pySplit (dir ++ "/" ++ rest) = (if dir.data = [] then "/" else dir, rest) := by
  have hdata : (dir ++ "/" ++ rest).data = dir.data ++ '/' :: rest.data := by
    simp [String.data_append]
  unfold pySplit
  simp only [hdata]
  have hrev : (dir.data ++ '/' :: rest.data).reverse
      = rest.data.reverse ++ '/' :: dir.data.reverse := by
    simp
  have htake : (rest.data.reverse ++ '/' :: dir.data.reverse).takeWhile
      (fun c => c ≠ '/') = rest.data.reverse := by
    refine takeWhileAppendCons _ _ _ _ (fun a ha => ?_) (by simp)
    have : a ∈ rest.data := List.mem_reverse.mp ha
    simpa using hr a this
  have htail : ((dir.data ++ '/' :: rest.data).reverse.takeWhile
      (fun c => c ≠ '/')).reverse = rest.data := by
    rw [hrev, htake, List.reverse_reverse]
  rw [htail]
  have hlen : (dir.data ++ '/' :: rest.data).length - rest.data.length
      = dir.data.length + 1 := by
    simp [List.length_append]
    omega
  have hhead : (dir.data ++ '/' :: rest.data).take (dir.data.length + 1)
      = dir.data ++ ['/'] := by
    have : dir.data ++ '/' :: rest.data = (dir.data ++ ['/']) ++ rest.data := by
      simp
    rw [this]
    exact List.take_left' (by simp)
  rw [hlen, hhead]
  by_cases hnil : dir.data = []
  · simp only [hnil, List.nil_append, if_pos rfl]
    have : ¬ ((['/'] : List Char) ≠ [] ∧ ¬ (∀ c ∈ (['/'] : List Char), c = '/')) := by
      simp
    rw [if_neg this]
    simp
  · have hne : dir.data ++ ['/'] ≠ [] := by simp
    have hnall : ¬ (∀ c ∈ dir.data ++ ['/'], c = '/') := by
      intro hall
      obtain ⟨x, t, hxt⟩ := List.exists_cons_of_ne_nil hnil
      have hlast : dir.data.getLast? = some (dir.data.getLast hnil) :=
        List.getLast?_eq_getLast _ hnil
      have : dir.data.getLast hnil = '/' :=
        hall _ (List.mem_append_left _ (List.getLast_mem hnil))
      exact hd (by rw [hlast, this])
    rw [if_pos ⟨hne, hnall⟩, if_neg hnil]
    have hrev2 : (dir.data ++ ['/']).reverse = '/' :: dir.data.reverse := by simp
    rw [hrev2]
    have hstep : (('/' :: dir.data.reverse).dropWhile (fun c => c = '/'))
        = dir.data.reverse.dropWhile (fun c => c = '/') := by
      simp [List.dropWhile_cons]
    rw [hstep]
    obtain ⟨x, t, hxt⟩ := List.exists_cons_of_ne_nil hnil
    have hx : dir.data.reverse.head? = dir.data.getLast? := by
      simp
    have hlastx : ∃ c, dir.data.getLast? = some c := by
      rw [List.getLast?_eq_getLast _ hnil]
      exact ⟨_, rfl⟩
    obtain ⟨c, hc⟩ := hlastx
    have hcne : (fun x => decide (x = '/')) c = false := by
      have : c ≠ '/' := fun h => hd (by rw [hc, h])
      simpa using this
    have hdrop : dir.data.reverse.dropWhile (fun c => c = '/') = dir.data.reverse := by
      refine dropWhileHeadFalse _ _ c ?_ hcne
      rw [hx, hc]
    rw [hdrop, List.reverse_reverse]

/-- Decomposition of pyPartitionDot on a string of the form name.rest where
the name has no dot. -/
lemma pyPartitionDot_eq (name rest : String) (hn : ∀ c ∈ name.data, c ≠ '.') :
    pyPartitionDot (name ++ "." ++ rest) = (name, ".", rest) := by
  have hdata : (name ++ "." ++ rest).data = name.data ++ '.' :: rest.data := by
    simp [String.data_append]
  unfold pyPartitionDot
  simp only [hdata]
  have hdrop : (name.data ++ '.' :: rest.data).dropWhile (fun c => c ≠ '.')
      = '.' :: rest.data := by
    refine dropWhileAppendCons _ _ _ _ (fun a ha => by simpa using hn a ha) (by simp)
  have htake : (name.data ++ '.' :: rest.data).takeWhile (fun c => c ≠ '.')
      = name.data := by
    refine takeWhileAppendCons _ _ _ _ (fun a ha => by simpa using hn a ha) (by simp)
  rw [hdrop]
  simp only [htake]

lemma pyJoin2_left_empty (a b : String) (hb : b.data.head? ≠ some '/')
    (ha : a.data = []) : pyJoin2 a b = a ++ b := by
  unfold pyJoin2
  rw [if_neg hb, if_pos (Or.inl ha)]

lemma pyJoin2_left_slash (a b : String) (hb : b.data.head? ≠ some '/')
    (ha : a.data.getLast? = some '/') : pyJoin2 a b = a ++ b := by
  unfold pyJoin2
  rw [if_neg hb, if_pos (Or.inr ha)]

lemma pyJoin2_sep (a b : String) (hb : b.data.head? ≠ some '/')
    (ha1 : a.data ≠ []) (ha2 : a.data.getLast? ≠ some '/') :
    pyJoin2 a b = a ++ "/" ++ b := by
  unfold pyJoin2
  rw [if_neg hb, if_neg (by rintro (h | h) <;> [exact ha1 h; exact ha2 h])]

lemma takeWhileAll (p : Char → Bool) (l : List Char)
    (h : ∀ a ∈ l, p a = true) : l.takeWhile p = l := by
  induction l with
  | nil => rfl
  | cons x xs ih =>
      simp only [List.takeWhile_cons, h x (by simp), if_true]
      rw [ih (fun a ha => h a (by simp [ha]))]

lemma dropWhileAll (p : Char → Bool) (l : List Char)
    (h : ∀ a ∈ l, p a = true) : l.dropWhile p = [] := by
  induction l with
  | nil => rfl
  | cons x xs ih =>
      simp only [List.dropWhile_cons, h x (by simp), if_true]
      exact ih (fun a ha => h a (by simp [ha]))

/-- Decomposition of pySplit on a path with no slash: the head is empty and
the tail is the whole path. -/
lemma pySplit_noslash (p : String) (hp : ∀ c ∈ p.data, c ≠ '/') :
    pySplit p = ("", p) := by
  have htake : p.data.reverse.takeWhile (fun c => c ≠ '/') = p.data.reverse := by
    refine takeWhileAll _ _ (fun a ha => ?_)
    simpa using hp a (List.mem_reverse.mp ha)
  unfold pySplit
  simp only [htake, List.reverse_reverse, Nat.sub_self, List.take_zero]
  simp

/-- Decomposition of pyPartitionDot on a string with no dot: the whole
string comes back with two empty parts. -/
lemma pyPartitionDot_nodot (s : String) (hs : ∀ c ∈ s.data, c ≠ '.') :
    pyPartitionDot s = (s, "", "") := by
  unfold pyPartitionDot
  have hdrop : s.data.dropWhile (fun c => c ≠ '.') = [] := by
    refine dropWhileAll _ _ (fun a ha => by simpa using hs a ha)
  rw [hdrop]


/-- C5: for an original source file at dir/name.ext, where the base name
contains no slash and no dot, the extension contains no slash, and the
directory part does not end in a slash, the cache path computed by
_2to3_cache_path is dir/__pycache__/name.tag.ext: the file is relocated
into the __pycache__ subdirectory of the parent of the original, with the
tag spliced into the filename between the base name and its extension. -/
theorem c5_cache_path_layout (dir name ext tag : String)
    (hn : ∀ c ∈ name.data, c ≠ '/' ∧ c ≠ '.')
    (he : ∀ c ∈ ext.data, c ≠ '/')
    (hd : dir.data.getLast? ≠ some '/') :
    _2to3_cache_path tag (dir ++ "/" ++ name ++ "." ++ ext)
      = dir ++ "/__pycache__/" ++ name ++ "." ++ tag ++ "." ++ ext := by
  have hgroup : dir ++ "/" ++ name ++ "." ++ ext
      = dir ++ "/" ++ (name ++ "." ++ ext) := by
    apply String.ext
    simp [String.data_append]
  have hrestslash : ∀ c ∈ (name ++ "." ++ ext).data, c ≠ '/' := by
    intro c hc
    have : (name ++ "." ++ ext).data = name.data ++ '.' :: ext.data := by
      simp [String.data_append]
    rw [this] at hc
    rcases List.mem_append.mp hc with h | h
    · exact (hn c h).1
    · rcases List.mem_cons.mp h with h | h
      · rw [h]; decide
      · exact he c h
  have hsplit : pySplit (dir ++ "/" ++ name ++ "." ++ ext)
      = (if dir.data = [] then "/" else dir, name ++ "." ++ ext) := by
    rw [hgroup]
    exact pySplit_eq dir (name ++ "." ++ ext) hrestslash hd
  have hpart : pyPartitionDot (name ++ "." ++ ext) = (name, ".", ext) :=
    pyPartitionDot_eq name ext (fun c hc => (hn c hc).2)
  have hfiledata : (name ++ "." ++ tag ++ "." ++ ext).data
      = name.data ++ '.' :: (tag.data ++ '.' :: ext.data) := by
    simp [String.data_append]
  have hfilehead : (name ++ "." ++ tag ++ "." ++ ext).data.head? ≠ some '/' := by
    rw [hfiledata]
    cases hnd : name.data with
    | nil => simp
    | cons c cs =>
        simp only [List.cons_append, List.head?_cons, ne_eq, Option.some.injEq]
        intro h
        exact (hn c (by rw [hnd]; simp)).1 h
  unfold _2to3_cache_path
  rw [hsplit]
  simp only [hpart]
  by_cases hnil : dir.data = []
  · rw [if_pos hnil]
    rw [pyJoin2_left_slash "/" "__pycache__" (by decide) (by decide)]
    rw [pyJoin2_sep _ _ hfilehead (by decide) (by decide)]
    apply String.ext
    simp only [String.data_append, List.append_assoc, hnil, List.nil_append]
    rfl
  · rw [if_neg hnil]
    rw [pyJoin2_sep dir "__pycache__" (by decide) hnil hd]
    have hadata : (dir ++ "/" ++ "__pycache__").data
        = dir.data ++ ('/' :: "__pycache__".data) := by
      simp [String.data_append]
    have hane : (dir ++ "/" ++ "__pycache__").data ≠ [] := by
      rw [hadata]; simp
    have halast : (dir ++ "/" ++ "__pycache__").data.getLast? = some '_' := by
      rw [hadata, List.getLast?_append_of_ne_nil dir.data (by simp)]
      decide
    rw [pyJoin2_sep _ _ hfilehead hane (by rw [halast]; decide)]
    apply String.ext
    simp only [String.data_append, List.append_assoc]
    rfl

/-- C5 witness: the cache path of d/m.py under tag T is
d/__pycache__/m.T.py. -/
theorem c5_cache_path_layout_witness :
    _2to3_cache_path "T" ("d" ++ "/" ++ "m" ++ "." ++ "py")
      = "d" ++ "/__pycache__/" ++ "m" ++ "." ++ "T" ++ "." ++ "py" :=
  c5_cache_path_layout "d" "m" "py" "T" (by decide) (by decide) (by decide)

/-- C10 counterexample: for the dotless filename mod, _2to3_cache_path does
not drop the tag; it concatenates the tag directly after the name, so the
result is __pycache__/modA rather than __pycache__/mod, and the cache paths
for two different tags differ rather than collide. -/
theorem c10_counterexample :
    _2to3_cache_path "A" "mod" = "__pycache__/modA"
    ∧ _2to3_cache_path "A" "mod" ≠ "__pycache__/mod"
    ∧ _2to3_cache_path "A" "mod" ≠ _2to3_cache_path "B" "mod" := by
  refine ⟨by decide, by decide, by decide⟩

/-- C10 amended: the cache filename is spliced at the first dot of the
original filename, so mod.tar.py becomes __pycache__/mod.tag.tar.py; and
for a nonempty filename with no dot and no slash, the empty partition
separator makes the filename base ++ tag with no dot at all, giving
__pycache__/nametag, which is a distinct path for each distinct tag. -/
theorem c10_first_dot_splice :
    (∀ tag : String, _2to3_cache_path tag "mod.tar.py"
        = "__pycache__/mod." ++ tag ++ ".tar.py")
    ∧ (∀ tag name : String, name.data ≠ [] →
        (∀ c ∈ name.data, c ≠ '/' ∧ c ≠ '.') →
        _2to3_cache_path tag name = "__pycache__/" ++ name ++ tag) := by
  constructor
  · intro tag
    have hsplit : pySplit "mod.tar.py" = ("", "mod.tar.py") :=
      pySplit_noslash _ (by decide)
    have hgroup : ("mod.tar.py" : String) = "mod" ++ "." ++ "tar.py" := by decide
    have hpart : pyPartitionDot "mod.tar.py" = ("mod", ".", "tar.py") := by
      rw [hgroup]
      exact pyPartitionDot_eq "mod" "tar.py" (by decide)
    have hfilehead : ("mod" ++ "." ++ tag ++ "." ++ "tar.py").data.head?
        ≠ some '/' := by
      have : ("mod" ++ "." ++ tag ++ "." ++ "tar.py").data
          = 'm' :: ("od." ++ tag ++ "." ++ "tar.py").data := by
        simp [String.data_append]
      rw [this]
      simp
    unfold _2to3_cache_path
    rw [hsplit]
    simp only [hpart]
    rw [pyJoin2_left_empty "" "__pycache__" (by decide) (by decide)]
    rw [pyJoin2_sep _ _ hfilehead (by decide) (by decide)]
    apply String.ext
    simp only [String.data_append, List.append_assoc]
    rfl
  · intro tag name hne hn
    have hsplit : pySplit name = ("", name) :=
      pySplit_noslash _ (fun c hc => (hn c hc).1)
    have hpart : pyPartitionDot name = (name, "", "") :=
      pyPartitionDot_nodot _ (fun c hc => (hn c hc).2)
    have hfiledata : (name ++ "" ++ tag ++ "" ++ "").data
        = name.data ++ tag.data := by
      simp [String.data_append]
    have hfilehead : (name ++ "" ++ tag ++ "" ++ "").data.head? ≠ some '/' := by
      rw [hfiledata]
      cases hnd : name.data with
      | nil => exact absurd hnd hne
      | cons c cs =>
          simp only [List.cons_append, List.head?_cons, ne_eq, Option.some.injEq]
          intro h
          exact (hn c (by rw [hnd]; simp)).1 h
    unfold _2to3_cache_path
    rw [hsplit]
    simp only [hpart]
    rw [pyJoin2_left_empty "" "__pycache__" (by decide) (by decide)]
    rw [pyJoin2_sep _ _ hfilehead (by decide) (by decide)]
    apply String.ext
    simp only [String.data_append, List.append_assoc, List.append_nil]
    rfl

/-- C10 witness for the amended claim: the cache path of the dotless
filename mod under tag T is __pycache__/modT. -/
theorem c10_first_dot_splice_witness :
    _2to3_cache_path "T" "mod" = "__pycache__/" ++ "mod" ++ "T" :=
  c10_first_dot_splice.2 "T" "mod" (by decide) (by decide)

/-- Name of the lib2to3 fixer package, as in create_fixer_names. -/
def fixer_pkg : String := "lib2to3.fixes"

/-- Full fixer name built from a short fix name, fixer_pkg ++ ".fix_" ++ fix,
as used for both nofixes and explicit fixes in create_fixer_names. -/
def fixName (fix : String) : String := fixer_pkg ++ ".fix_" ++ fix

/-- Runtime2to3Installer.create_fixer_names: avail_fixes stands for the set
returned by refactor.get_fixers_from_package, an external collaborator.
The unwanted set maps every nofix through fixName; the explicit set maps
every entry of fixes other than the sentinel all; the requested set is the
explicit one unless fixes is empty or mentions all, in which case the
available fixes are joined in; the result removes the unwanted set. -/
def create_fixer_names (avail_fixes : Finset String)
    (fixes nofixes : List String) : Finset String :=
  let unwanted_fixes := (nofixes.map fixName).toFinset
  let explicit := ((fixes.filter (fun f => f ≠ "all")).map fixName).toFinset
  let requested :=
    if fixes ≠ [] then
      if "all" ∈ fixes then avail_fixes ∪ explicit else explicit
    else avail_fixes ∪ explicit
  requested \ unwanted_fixes

lemma fixName_inj (a b : String) (h : fixName a = fixName b) : a = b := by
  have hd := congrArg String.data h
  simp only [fixName, String.data_append, List.append_assoc] at hd
  apply String.ext
  exact List.append_cancel_left (List.append_cancel_left hd)

/-- C4 counterexample: when the include list contains the sentinel all next
to another name, the result is not the set of available fixers minus the
excluded ones; the extra explicitly included fixer survives. -/
theorem c4_counterexample :
    "all" ∈ (["all", "b"] : List String)
    ∧ create_fixer_names {"lib2to3.fixes.fix_a"} ["all", "b"] []
        ≠ ({"lib2to3.fixes.fix_a"}
            \ (([] : List String).map fixName).toFinset : Finset String) := by
  refine ⟨by decide, by decide⟩

/-- C4 amended: excluded fixers never appear in the result, for any include
and exclude lists; for include [A, B] and exclude [B] with distinct A, B and
A not the sentinel, the result contains the fixer for A and not the fixer
for B; for an empty include list the result is all available fixers minus
the excluded ones; and when the include list mentions the sentinel all, the
result is the available fixers joined with the other explicitly included
fixers, minus the excluded ones. -/
theorem c4_exclude_wins :
    (∀ (avail_fixes : Finset String) (fixes nofixes : List String) (f : String),
        f ∈ nofixes → fixName f ∉ create_fixer_names avail_fixes fixes nofixes)
    ∧ (∀ (avail_fixes : Finset String) (A B : String), A ≠ B → A ≠ "all" →
        fixName A ∈ create_fixer_names avail_fixes [A, B] [B]
        ∧ fixName B ∉ create_fixer_names avail_fixes [A, B] [B])
    ∧ (∀ (avail_fixes : Finset String) (nofixes : List String),
        create_fixer_names avail_fixes [] nofixes
          = avail_fixes \ (nofixes.map fixName).toFinset)
    ∧ (∀ (avail_fixes : Finset String) (fixes nofixes : List String),
        "all" ∈ fixes →
        create_fixer_names avail_fixes fixes nofixes
          = (avail_fixes
              ∪ ((fixes.filter (fun f => f ≠ "all")).map fixName).toFinset)
            \ (nofixes.map fixName).toFinset) := by
  have hnotmem : ∀ (avail_fixes : Finset String) (fixes nofixes : List String)
      (f : String), f ∈ nofixes →
      fixName f ∉ create_fixer_names avail_fixes fixes nofixes := by
    intro avail fixes nofixes f hf hmem
    unfold create_fixer_names at hmem
    have h2 := (Finset.mem_sdiff.mp hmem).2
    exact h2 (List.mem_toFinset.mpr (List.mem_map.mpr ⟨f, hf, rfl⟩))
  refine ⟨hnotmem, ?_, ?_, ?_⟩
  · intro avail A B hAB hAall
    constructor
    · unfold create_fixer_names
      rw [Finset.mem_sdiff]
      constructor
      · have hexp : fixName A
            ∈ (((([A, B]).filter (fun f => f ≠ "all")).map fixName).toFinset
              : Finset String) := by
          apply List.mem_toFinset.mpr
          apply List.mem_map.mpr
          refine ⟨A, ?_, rfl⟩
          apply List.mem_filter.mpr
          exact ⟨by simp, by simpa using hAall⟩
        by_cases hall : "all" ∈ ([A, B] : List String)
        · rw [if_pos (by simp), if_pos hall]
          exact Finset.mem_union_right _ hexp
        · rw [if_pos (by simp), if_neg hall]
          exact hexp
      · intro hun
        rcases List.mem_map.mp (List.mem_toFinset.mp hun) with ⟨g, hg, hgeq⟩
        rcases List.mem_singleton.mp hg with rfl
        exact hAB (fixName_inj _ _ hgeq).symm
    · exact hnotmem avail [A, B] [B] B (by simp)
  · intro avail nofixes
    unfold create_fixer_names
    simp
  · intro avail fixes nofixes hall
    have hne : fixes ≠ [] := by rintro rfl; simp at hall
    simp only [create_fixer_names]
    rw [if_pos hne, if_pos hall]

/-- C4 witness: with no available fixers, include [a, b] and exclude [b],
the fixer for a is kept and the fixer for b is dropped. -/
theorem c4_exclude_wins_witness :
    fixName "a" ∈ create_fixer_names ∅ ["a", "b"] ["b"]
    ∧ fixName "b" ∉ create_fixer_names ∅ ["a", "b"] ["b"] :=
  c4_exclude_wins.2.1 ∅ "a" "b" (by decide) (by decide)

/-- Single quote character, used by the Python repr of a string. -/
def squote : String := ⟨[Char.ofNat 39]⟩

/-- Python repr of a string made of plain identifier characters: the string
between single quotes (escaping never arises for fixer names). -/
def pyReprStr (s : String) : String := squote ++ s ++ squote

/-- Python str of a tuple of strings: parentheses around the comma-joined
reprs, with the trailing comma of a one-element tuple. -/
def pyReprTuple (xs : List String) : String :=
  match xs with
  | [] => "()"
  | [x] => "(" ++ pyReprStr x ++ ",)"
  | _ => "(" ++ String.intercalate ", " (xs.map pyReprStr) ++ ")"

/-- Runtime2to3Installer.create_tag: sort the fixer-name set into a tuple,
hash the str of that tuple and keep the first six hex digits after the
rt2to3- stem.  The md5 hex digest is an external collaborator passed in as
md5hex. -/
def create_tag (md5hex : String → String) (fixer_names : Finset String) : String :=
  let key := fixer_names.sort (fun a b => a ≤ b)
  "rt2to3-" ++ (md5hex (pyReprTuple key)).take 6

/-- C3: any two fixer-name collections with the same members, whatever
their order and multiplicities, give the same cache tag, for every digest
function: the tag only depends on the set of fixer names. -/
theorem c3_tag_order_independent (md5hex : String → String)
    (l1 l2 : List String) (h : l1.toFinset = l2.toFinset) :
    create_tag md5hex l1.toFinset = create_tag md5hex l2.toFinset := by
  rw [h]

/-- C3 witness: the collections [b, a] and [a, b, a] give the same tag
under the identity digest. -/
theorem c3_tag_order_independent_witness :
    create_tag (fun s => s) (["b", "a"] : List String).toFinset
      = create_tag (fun s => s) (["a", "b", "a"] : List String).toFinset :=
  c3_tag_order_independent (fun s => s) ["b", "a"] ["a", "b", "a"] (by decide)

/-- Stat result of a file: the modification time, as in os.stat. -/
structure Stats where
  st_mtime : Int
deriving DecidableEq

/-- Errno of a missing file, errno.ENOENT. -/
def ENOENT : Nat := 2

/-- Filesystem as seen by the loader: stat either returns the stats of a
file or fails with an errno, error ENOENT meaning the file is absent; data
gives the raw byte content that a plain read of an existing file returns
(the behaviour of SourceFileLoader.get_data on a file whose existence has
been established).  The claims only ever read files they have statted. -/
structure FS where
  stat : String → Except Nat Stats
  data : String → List Nat

/-- Runtime2to3SourceFileLoader._load_cached_2to3: stat the cache and then
the original inside one try block; an OSError with errno ENOENT from
either stat is a cache miss (none), any other OSError is re-raised; a
cache not strictly newer than the source is a miss; otherwise the raw
bytes of the cache file are returned. -/
def _load_cached_2to3 (fs : FS) (path cache : String) :
    Except Nat (Option (List Nat)) :=
  match fs.stat cache with
  | .error e => if e = ENOENT then .ok none else .error e
  | .ok cache_stats =>
    match fs.stat path with
    | .error e => if e = ENOENT then .ok none else .error e
    | .ok source_stats =>
      if cache_stats.st_mtime ≤ source_stats.st_mtime then .ok none
      else .ok (some (fs.data cache))

/-- Runtime2to3SourceFileLoader together with its external collaborators:
original_path and tag are stored by the constructor; refactor_string is
the refactoring engine; decode models RefactoringTool._read_python_source,
turning the raw bytes of a file into source text plus a detected encoding;
encode models bytearray(text, encoding or sys.getdefaultencoding()). -/
structure Loader where
  original_path : String
  tag : String
  refactor_string : String → String
  decode : List Nat → String × Option String
  encode : String → Option String → List Nat

/-- Python string slice [:-1]: the string without its final character. -/
def pyDropLast (s : String) : String := ⟨s.data.dropLast⟩

/-- Runtime2to3SourceFileLoader._refactor_2to3: read the source text and
encoding, append one newline before handing the text to the refactoring
engine, and cut the last character off the engine result. -/
def _refactor_2to3 (L : Loader) (fs : FS) (path : String) :
    String × Option String :=
  let se := L.decode (fs.data path)
  (pyDropLast (L.refactor_string (se.1 ++ "\n")), se.2)

/-- Writing a file: set_data stores the given bytes at the path and the
filesystem stamps the file with the write time t; other files keep their
stats and content. -/
def FS.set_data (fs : FS) (p : String) (d : List Nat) (t : Int) : FS where
  stat := fun q => if q = p then .ok ⟨t⟩ else fs.stat q
  data := fun q => if q = p then d else fs.data q

/-- Runtime2to3SourceFileLoader.get_data, with t the write time a store
would get: for the primary source path, consult the cache; on a miss,
refactor the source, encode the output, store it at the cache path and
return it; for any other path fall back to the plain read. -/
def get_data (L : Loader) (fs : FS) (t : Int) (path : String) :
    Except Nat (FS × List Nat) :=
  if path = L.original_path then
    let cache := _2to3_cache_path L.tag path
    match _load_cached_2to3 fs path cache with
    | .error e => .error e
    | .ok (some d) => .ok (fs, d)
    | .ok none =>
      let oe := _refactor_2to3 L fs path
      let d := L.encode oe.1 oe.2
      .ok (fs.set_data cache d t, d)
  else .ok (fs, fs.data path)

/-- C1: when the original source exists with stats s, the cache lookup
returns bytes exactly when the cache file exists and its modification
time is strictly greater than that of the source, the bytes being the raw
content of the cache file; an absent cache is a miss, and so is a cache
whose timestamp ties with or precedes that of the source. -/
theorem c1_cache_lookup (fs : FS) (path cache : String) (s : Stats)
    (hs : fs.stat path = .ok s) :
    (∀ d, _load_cached_2to3 fs path cache = .ok (some d)
        ↔ ∃ c, fs.stat cache = .ok c ∧ s.st_mtime < c.st_mtime
            ∧ d = fs.data cache)
    ∧ (fs.stat cache = .error ENOENT
        → _load_cached_2to3 fs path cache = .ok none)
    ∧ (∀ c, fs.stat cache = .ok c → c.st_mtime ≤ s.st_mtime
        → _load_cached_2to3 fs path cache = .ok none) := by
  refine ⟨?_, ?_, ?_⟩
  · intro d
    constructor
    · intro h
      cases hc : fs.stat cache with
      | error e =>
          simp only [_load_cached_2to3, hc] at h
          split at h <;> simp_all
      | ok c =>
          simp only [_load_cached_2to3, hc, hs] at h
          by_cases hle : c.st_mtime ≤ s.st_mtime
          · rw [if_pos hle] at h; simp at h
          · rw [if_neg hle] at h
            simp only [Except.ok.injEq, Option.some.injEq] at h
            exact ⟨c, rfl, by omega, h.symm⟩
    · rintro ⟨c, hc, hlt, rfl⟩
      simp only [_load_cached_2to3, hc, hs]
      rw [if_neg (by omega)]
  · intro h
    simp [_load_cached_2to3, h]
  · intro c hc hle
    simp only [_load_cached_2to3, hc, hs]
    rw [if_pos hle]

/-- Concrete filesystem for the cache hit witness: source s.py with mtime
0, cache c.py with mtime 5, every other path absent; every existing file
reads as the bytes [1, 2]. -/
def fsHit : FS where
  stat := fun q =>
    if q = "s.py" then .ok ⟨0⟩ else if q = "c.py" then .ok ⟨5⟩ else .error ENOENT
  data := fun _ => [1, 2]

/-- C1 witness: on fsHit the lookup of c.py against s.py is a hit returning
the cache bytes. -/
theorem c1_cache_lookup_witness :
    _load_cached_2to3 fsHit "s.py" "c.py" = .ok (some [1, 2]) :=
  ((c1_cache_lookup fsHit "s.py" "c.py" ⟨0⟩ rfl).1 [1, 2]).mpr
    ⟨⟨5⟩, rfl, by decide, rfl⟩

/-- C6: a stat failure whose errno is not ENOENT is re-raised unmodified by
the cache lookup, whether it happens on the cache stat or on the source
stat; it is never turned into a miss. -/
theorem c6_errors_propagate (fs : FS) (path cache : String) (e : Nat)
    (he : e ≠ ENOENT) :
    (fs.stat cache = .error e → _load_cached_2to3 fs path cache = .error e)
    ∧ (∀ c, fs.stat cache = .ok c → fs.stat path = .error e
        → _load_cached_2to3 fs path cache = .error e) := by
  constructor
  · intro h
    simp only [_load_cached_2to3, h]
    rw [if_neg he]
  · intro c hc hp
    simp only [_load_cached_2to3, hc, hp]
    rw [if_neg he]

/-- Concrete filesystem for the error witness: the stat of c.py fails with
errno 13 (permission denied), everything else exists with mtime 0. -/
def fsErr : FS where
  stat := fun q => if q = "c.py" then .error 13 else .ok ⟨0⟩
  data := fun _ => []

/-- C6 witness: on fsErr the lookup re-raises errno 13 instead of treating
it as a miss. -/
theorem c6_errors_propagate_witness :
    _load_cached_2to3 fsErr "s.py" "c.py" = .error 13 :=
  (c6_errors_propagate fsErr "s.py" "c.py" 13 (by decide)).1 rfl

/-- C9: the transform boundary invokes the engine on the source text with
exactly one newline appended, keeps the detected encoding, and cuts the
last character off the engine result; when the engine result ends in a
newline, this strips exactly that one newline, so appending a newline to
the returned text recovers the engine output. -/
theorem c9_newline_boundary (L : Loader) (fs : FS) (path : String)
    (out : List Char)
    (hout : (L.refactor_string ((L.decode (fs.data path)).1 ++ "\n")).data
        = out ++ ['\n']) :
    (_refactor_2to3 L fs path).1 ++ "\n"
      = L.refactor_string ((L.decode (fs.data path)).1 ++ "\n")
    ∧ (_refactor_2to3 L fs path).2 = (L.decode (fs.data path)).2 := by
  constructor
  · show pyDropLast (L.refactor_string ((L.decode (fs.data path)).1 ++ "\n"))
        ++ "\n" = _
    apply String.ext
    simp [pyDropLast, String.data_append, hout]
  · rfl

/-- Concrete loader for the newline-boundary witness: an engine that echoes
its input, a decoder reading every file as the text x with no declared
encoding, and a byte-per-character encoder. -/
def echoLoader : Loader where
  original_path := "m.py"
  tag := "T"
  refactor_string := fun s => s
  decode := fun _ => ("x", none)
  encode := fun s _ => s.data.map Char.toNat

/-- Concrete filesystem with no files, for the newline-boundary witness. -/
def fsPlain : FS where
  stat := fun _ => .error ENOENT
  data := fun _ => []

/-- C9 witness: with the echo engine on source text x, the returned text
plus one newline is the engine output, namely x followed by a newline. -/
theorem c9_newline_boundary_witness :
    (_refactor_2to3 echoLoader fsPlain "m.py").1 ++ "\n"
      = echoLoader.refactor_string
          ((echoLoader.decode (fsPlain.data "m.py")).1 ++ "\n") :=
  (c9_newline_boundary echoLoader fsPlain "m.py" ['x'] (by decide)).1

lemma set_data_stat_same (fs : FS) (p : String) (d : List Nat) (t : Int) :
    (fs.set_data p d t).stat p = .ok ⟨t⟩ := by
  simp [FS.set_data]

lemma set_data_stat_other (fs : FS) (p : String) (d : List Nat) (t : Int)
    (q : String) (h : q ≠ p) : (fs.set_data p d t).stat q = fs.stat q := by
  simp [FS.set_data, h]

lemma set_data_data_same (fs : FS) (p : String) (d : List Nat) (t : Int) :
    (fs.set_data p d t).data p = d := by
  simp [FS.set_data]

lemma set_data_data_other (fs : FS) (p : String) (d : List Nat) (t : Int)
    (q : String) (h : q ≠ p) : (fs.set_data p d t).data q = fs.data q := by
  simp [FS.set_data, h]

/-- Behaviour of get_data on the primary path when the cache lookup
misses: the source is refactored, encoded, stored at the cache path and
returned. -/
lemma get_data_miss (L : Loader) (fs : FS) (t : Int)
    (h : _load_cached_2to3 fs L.original_path
        (_2to3_cache_path L.tag L.original_path) = .ok none) :
    get_data L fs t L.original_path
      = .ok (fs.set_data (_2to3_cache_path L.tag L.original_path)
          (L.encode (_refactor_2to3 L fs L.original_path).1
            (_refactor_2to3 L fs L.original_path).2) t,
        L.encode (_refactor_2to3 L fs L.original_path).1
          (_refactor_2to3 L fs L.original_path).2) := by
  simp [get_data, h]

/-- Behaviour of get_data on the primary path when the cache lookup hits:
the cached bytes come back and the filesystem is untouched. -/
lemma get_data_hit (L : Loader) (fs : FS) (t : Int) (d : List Nat)
    (h : _load_cached_2to3 fs L.original_path
        (_2to3_cache_path L.tag L.original_path) = .ok (some d)) :
    get_data L fs t L.original_path = .ok (fs, d) := by
  simp [get_data, h]

/-- The transform boundary reads the filesystem only through the content
of the path it is given. -/
lemma refactor_congr (L : Loader) (fsa fsb : FS) (p : String)
    (h : fsa.data p = fsb.data p) :
    _refactor_2to3 L fsa p = _refactor_2to3 L fsb p := by
  simp only [_refactor_2to3, h]

/-- C2: round trip through the cache.  With the cache absent and the
original source present, a first get_data call on the primary path misses,
transforms and stores; a second call on the resulting filesystem, with the
source untouched, returns byte-identical data, whether the fresh cache
counts as a hit or a timestamp tie forces an identical recomputation.
t1 and t2 are the filesystem write times of the two potential stores. -/
theorem c2_round_trip (L : Loader) (fs : FS) (s : Stats) (t1 t2 : Int)
    (hsrc : fs.stat L.original_path = .ok s)
    (hmiss : fs.stat (_2to3_cache_path L.tag L.original_path) = .error ENOENT)
    (hne : _2to3_cache_path L.tag L.original_path ≠ L.original_path) :
    ∃ fs1 d, get_data L fs t1 L.original_path = .ok (fs1, d)
      ∧ ∃ fs2, get_data L fs1 t2 L.original_path = .ok (fs2, d) := by
  have hload1 : _load_cached_2to3 fs L.original_path
      (_2to3_cache_path L.tag L.original_path) = .ok none := by
    simp [_load_cached_2to3, hmiss]
  have h1 := get_data_miss L fs t1 hload1
  refine ⟨_, _, h1, ?_⟩
  have hstat_c : (fs.set_data (_2to3_cache_path L.tag L.original_path)
      (L.encode (_refactor_2to3 L fs L.original_path).1
        (_refactor_2to3 L fs L.original_path).2) t1).stat
      (_2to3_cache_path L.tag L.original_path) = .ok ⟨t1⟩ :=
    set_data_stat_same _ _ _ _
  have hstat_s : (fs.set_data (_2to3_cache_path L.tag L.original_path)
      (L.encode (_refactor_2to3 L fs L.original_path).1
        (_refactor_2to3 L fs L.original_path).2) t1).stat
      L.original_path = .ok s := by
    rw [set_data_stat_other _ _ _ _ _ (Ne.symm hne), hsrc]
  have hdata_s : (fs.set_data (_2to3_cache_path L.tag L.original_path)
      (L.encode (_refactor_2to3 L fs L.original_path).1
        (_refactor_2to3 L fs L.original_path).2) t1).data
      L.original_path = fs.data L.original_path :=
    set_data_data_other _ _ _ _ _ (Ne.symm hne)
  have hdata_c : (fs.set_data (_2to3_cache_path L.tag L.original_path)
      (L.encode (_refactor_2to3 L fs L.original_path).1
        (_refactor_2to3 L fs L.original_path).2) t1).data
      (_2to3_cache_path L.tag L.original_path)
      = L.encode (_refactor_2to3 L fs L.original_path).1
          (_refactor_2to3 L fs L.original_path).2 :=
    set_data_data_same _ _ _ _
  by_cases hle : t1 ≤ s.st_mtime
  · have hload2 : _load_cached_2to3
        (fs.set_data (_2to3_cache_path L.tag L.original_path)
          (L.encode (_refactor_2to3 L fs L.original_path).1
            (_refactor_2to3 L fs L.original_path).2) t1)
        L.original_path (_2to3_cache_path L.tag L.original_path)
        = .ok none := by
      simp only [_load_cached_2to3, hstat_c, hstat_s]
      rw [if_pos hle]
    have hsame : _refactor_2to3 L
        (fs.set_data (_2to3_cache_path L.tag L.original_path)
          (L.encode (_refactor_2to3 L fs L.original_path).1
            (_refactor_2to3 L fs L.original_path).2) t1)
        L.original_path
        = _refactor_2to3 L fs L.original_path :=
      refactor_congr L _ _ _ hdata_s
    have h2 := get_data_miss L
      (fs.set_data (_2to3_cache_path L.tag L.original_path)
        (L.encode (_refactor_2to3 L fs L.original_path).1
          (_refactor_2to3 L fs L.original_path).2) t1) t2 hload2
    rw [hsame] at h2
    exact ⟨_, h2⟩
  · have hload2 : _load_cached_2to3
        (fs.set_data (_2to3_cache_path L.tag L.original_path)
          (L.encode (_refactor_2to3 L fs L.original_path).1
            (_refactor_2to3 L fs L.original_path).2) t1)
        L.original_path (_2to3_cache_path L.tag L.original_path)
        = .ok (some (L.encode (_refactor_2to3 L fs L.original_path).1
            (_refactor_2to3 L fs L.original_path).2)) := by
      simp only [_load_cached_2to3, hstat_c, hstat_s]
      rw [if_neg hle, hdata_c]
    have h2 := get_data_hit L
      (fs.set_data (_2to3_cache_path L.tag L.original_path)
        (L.encode (_refactor_2to3 L fs L.original_path).1
          (_refactor_2to3 L fs L.original_path).2) t1) t2 _ hload2
    exact ⟨_, h2⟩

/-- Concrete filesystem for the round-trip witness: the source m.py exists
with mtime 0, nothing else exists, every read gives the byte 120. -/
def fsSrc : FS where
  stat := fun q => if q = "m.py" then .ok ⟨0⟩ else .error ENOENT
  data := fun _ => [120]

/-- C2 witness: on fsSrc with the echo engine, the first get_data call at
write time 1 and a second call at write time 2 return the same bytes. -/
theorem c2_round_trip_witness :
    ∃ fs1 d, get_data echoLoader fsSrc 1 echoLoader.original_path
        = .ok (fs1, d)
      ∧ ∃ fs2, get_data echoLoader fs1 2 echoLoader.original_path
          = .ok (fs2, d) :=
  c2_round_trip echoLoader fsSrc ⟨0⟩ 1 2 rfl rfl (by decide)

/-- Result of invoking a path hook: either an ImportError carrying its
message, or a newly constructed finder bound to the accepted path. -/
inductive PathHookResult where
  | importError (msg : String)
  | finder (path : String)
deriving DecidableEq

/-- Runtime2to3FileFinder.predicated_path_hook: the closure placed on
sys.path_hooks.  A path that is not a directory raises ImportError, a
directory failing the predicate raises ImportError, and otherwise a new
Runtime2to3FileFinder is constructed on the path, carrying the
refactoring tool and tag closed over by the hook.  isdir models
os.path.isdir, an external collaborator. -/
def predicated_path_hook (isdir : String → Bool) (predicate : String → Bool)
    (path : String) : PathHookResult :=
  if ¬ isdir path then .importError "only directories are supported"
  else if ¬ predicate path then .importError "predicate not satisfied"
  else .finder path

/-- C7: the installed path hook raises ImportError on any path that is not
a directory, raises ImportError on any directory the predicate rejects,
and otherwise returns a newly constructed finder for exactly that path, so
rejection always surfaces through the import-error channel. -/
theorem c7_path_hook (isdir predicate : String → Bool) (path : String) :
    (isdir path = false →
      predicated_path_hook isdir predicate path
        = .importError "only directories are supported")
    ∧ (isdir path = true → predicate path = false →
      predicated_path_hook isdir predicate path
        = .importError "predicate not satisfied")
    ∧ (isdir path = true → predicate path = true →
      predicated_path_hook isdir predicate path = .finder path) := by
  refine ⟨?_, ?_, ?_⟩
  · intro h
    simp [predicated_path_hook, h]
  · intro h1 h2
    simp [predicated_path_hook, h1, h2]
  · intro h1 h2
    simp [predicated_path_hook, h1, h2]

/-- C7 witness: a directory satisfying the predicate yields a finder bound
to that directory. -/
theorem c7_path_hook_witness :
    predicated_path_hook (fun _ => true) (fun _ => true) "/d" = .finder "/d" :=
  (c7_path_hook (fun _ => true) (fun _ => true) "/d").2.2 rfl rfl

/-- Python str.startswith: the candidate equals the first characters of
the string. -/
def pyStartsWith (s pre : String) : Bool :=
  s.data.take pre.data.length == pre.data

/-- The predicate closed over by Runtime2to3Installer.install: absolutize
the probed path and compare it against each configured directory, as
given, by equality or by extension with the path separator.  abspath
models os.path.abspath, an external collaborator depending on the current
working directory. -/
def install_predicate (abspath : String → String) (directories : List String)
    (path : String) : Bool :=
  directories.any
    (fun d => abspath path == d || pyStartsWith (abspath path) (d ++ "/"))

/-- Modelled from the spec: the predicate as the claim describes it, where
install first normalizes the configured directories to absolute form and
the probe matches the absolutized path against those normalized
directories.  The code of install performs no such normalization, so this
definition follows the words of the spec for comparison. -/
def install_predicate_speced (abspath : String → String)
    (directories : List String) (path : String) : Bool :=
  (directories.map abspath).any
    (fun d => abspath path == d || pyStartsWith (abspath path) (d ++ "/"))

/-- The isinstance wrap at the top of install: a single string becomes a
one-element list, a list is taken as given. -/
def install_directories : String ⊕ List String → List String
  | .inl s => [s]
  | .inr l => l

/-- Absolute-path function for the witnesses: a path that does not start
with a slash is anchored under /cwd. -/
def cwdAbs (s : String) : String :=
  if pyStartsWith s "/" then s else "/cwd/" ++ s

/-- C8 counterexample: with the directory configured as the relative
string rel and the probe rel, the predicate built by install returns
false, while the predicate the claim describes, with the directory
normalized to /cwd/rel first, returns true: install does not normalize
the configured directories. -/
theorem c8_counterexample :
    install_predicate cwdAbs ["rel"] "rel" = false
    ∧ install_predicate_speced cwdAbs ["rel"] "rel" = true := by
  refine ⟨by decide, by decide⟩

lemma pyStartsWith_iff (s pre : String) :
    pyStartsWith s pre = true ↔ ∃ t, s.data = pre.data ++ t := by
  unfold pyStartsWith
  rw [beq_iff_eq]
  constructor
  · intro h
    refine ⟨s.data.drop pre.data.length, ?_⟩
    conv_lhs => rw [← List.take_append_drop pre.data.length s.data]
    rw [h]
  · rintro ⟨t, ht⟩
    rw [ht]
    exact List.take_left' rfl

/-- C8 amended: install wraps a single string argument into a one-element
list but performs no normalization of the configured directories; the
predicate it builds holds for a probed path exactly when the absolute
form of the probed path equals one of the directories exactly as
configured, or extends one of them followed by the path separator, by
pure string-prefix matching. -/
theorem c8_install_predicate :
    (∀ s : String, install_directories (.inl s) = [s])
    ∧ (∀ (abspath : String → String) (dirs : List String) (path : String),
        install_predicate abspath dirs path = true
          ↔ ∃ d ∈ dirs, abspath path = d
              ∨ ∃ t, (abspath path).data = (d ++ "/").data ++ t) := by
  constructor
  · intro s
    rfl
  · intro abspath dirs path
    unfold install_predicate
    rw [List.any_eq_true]
    constructor
    · rintro ⟨d, hd, hor⟩
      rcases Bool.or_eq_true_iff.mp hor with h | h
      · exact ⟨d, hd, Or.inl (beq_iff_eq.mp h)⟩
      · exact ⟨d, hd, Or.inr ((pyStartsWith_iff _ _).mp h)⟩
    · rintro ⟨d, hd, h | h⟩
      · exact ⟨d, hd, Bool.or_eq_true_iff.mpr (Or.inl (beq_iff_eq.mpr h))⟩
      · exact ⟨d, hd, Bool.or_eq_true_iff.mpr
          (Or.inr ((pyStartsWith_iff _ _).mpr h))⟩

/-- C8 witness: with the absolute directory /a configured, the probe /a/b
satisfies the predicate built by install. -/
theorem c8_install_predicate_witness :
    install_predicate cwdAbs ["/a"] "/a/b" = true :=
  (c8_install_predicate.2 cwdAbs ["/a"] "/a/b").mpr
    ⟨"/a", by decide, Or.inr ⟨['b'], by decide⟩⟩
